import Mathlib

/-!
Verification development for the JewelCraft mesh helper library
(`src/lib/mesh.py`) and its static localization table
(`src/localization.py`).

The host mesh kernel's editable mesh is shallowly embedded: vertices are
addressed by their index into a coordinate list, edges are vertex-id pairs,
faces are cyclic vertex-id lists.  Coordinates use exact rationals in place
of the host's floats.  Kernel operations the library delegates to
(`bmesh.ops.duplicate`, evaluated-mesh snapshots, volume calculation) are
embedded as explicit state transformers or supplied as oracle parameters;
calls that may raise are embedded in `Except`, with the error value carrying
the mutable state at the point the exception escapes.
-/

namespace Jewelcraft

/-- A 3-component coordinate in model space (exact rationals stand in for
the host's float triples). -/
abbrev Pt : Type := ℚ × ℚ × ℚ

/-- The kernel's editable mesh aggregate (`BMesh`): vertex coordinates
(vertices addressed by index), edges as vertex-id pairs, faces as cyclic
vertex-id lists. -/
structure BMesh where
  verts : List Pt := []
  medges : List (Nat × Nat) := []
  mfaces : List (List Nat) := []
deriving DecidableEq

/-- `bm.verts.new(co)`: appends a vertex with coordinate `co`, returning the
new vertex (its index). -/
def vertsNew (bm : BMesh) (co : Pt) : BMesh × Nat :=
  ({ bm with verts := bm.verts ++ [co] }, bm.verts.length)

/-- A stateful list comprehension `[f(x) for x in l]` where `f` mutates the
mesh: threads the state left to right and collects the produced elements. -/
def mapState {St A B : Type} (f : St → A → St × B) : St → List A → St × List B
  | st, [] => (st, [])
  | st, a :: rest =>
    let p := f st a
    let q := mapState f p.1 rest
    (q.1, p.2 :: q.2)

/-- `make_rect(bm, x, y, z)` from `src/lib/mesh.py`: inserts 4 vertices at
`(x,y,z), (-x,y,z), (-x,-y,z), (x,-y,z)` and returns them in that order. -/
def make_rect (bm : BMesh) (x y z : ℚ) : BMesh × List Nat :=
  mapState vertsNew bm [(x, y, z), (-x, y, z), (-x, -y, z), (x, -y, z)]

/-- `make_tri(bm, x, y, z)` from `src/lib/mesh.py`: inserts 3 vertices at
`(x, y/3, z), (-x, y/3, z), (0, -y/1.5, z)` and returns them in that order. -/
def make_tri (bm : BMesh) (x y z : ℚ) : BMesh × List Nat :=
  mapState vertsNew bm [(x, y / 3, z), (-x, y / 3, z), (0, -y / (1.5 : ℚ), z)]

/-- The coordinate of vertex `i` of the mesh (`v.co`). -/
def BMesh.co (bm : BMesh) (i : Nat) : Pt := bm.verts.getD i (0, 0, 0)

/-- Modelled from the spec: `pairwise_cyclic` lives in `lib/iterutils.py`,
which `mesh.py` imports but which is absent from `src/`.  Spec §4.2: pairs
each element with its cyclic successor, `(v_i, v_{(i+1) mod N})` for
`i = 0 .. N-1`, in ring order. -/
def pairwise_cyclic {α : Type} (l : List α) : List (α × α) :=
  match l with
  | [] => []
  | x :: xs => (x :: xs).zip (xs ++ [x])

/-- Per-triangle summation of coordinates (exact arithmetic). -/
def ptSum (l : List Pt) : Pt :=
  l.foldl (fun a b => (a.1 + b.1, a.2.1 + b.2.1, a.2.2 + b.2.2)) (0, 0, 0)

/-- Component-wise average of a list of coordinates. -/
def barycenter (l : List Pt) : Pt :=
  ((ptSum l).1 / l.length, (ptSum l).2.1 / l.length, (ptSum l).2.2 / l.length)

-- Evaluation lemmas for the primitive constructors

lemma getD_append_add {α : Type} (l l' : List α) (k : Nat) (d : α) :
    (l ++ l').getD (l.length + k) d = l'.getD k d := by
  rcases Nat.lt_or_ge k l'.length with h | h
  · rw [List.getD_append_right l l' d (l.length + k) (Nat.le_add_right _ _)]
    simp
  · rw [List.getD_eq_default _ _ (by simp; omega),
      List.getD_eq_default _ _ (by omega)]

lemma mapState_vertsNew_verts (cos : List Pt) : ∀ bm : BMesh,
    (mapState vertsNew bm cos).1.verts = bm.verts ++ cos := by
  induction cos with
  | nil => intro bm; simp [mapState]
  | cons c rest ih =>
    intro bm
    simp only [mapState]
    rw [ih]
    simp [vertsNew]

lemma mapState_vertsNew_co (cos : List Pt) : ∀ bm : BMesh,
    ((mapState vertsNew bm cos).2).map (mapState vertsNew bm cos).1.co
      = cos := by
  induction cos with
  | nil => intro bm; simp [mapState]
  | cons c rest ih =>
    intro bm
    simp only [mapState, List.map_cons, List.cons.injEq]
    refine ⟨?_, ih (vertsNew bm c).1⟩
    rw [BMesh.co, mapState_vertsNew_verts rest (vertsNew bm c).1]
    show ((bm.verts ++ [c]) ++ rest).getD bm.verts.length ((0, 0, 0) : Pt) = c
    rw [List.append_assoc]
    have h := getD_append_add bm.verts ([c] ++ rest) 0 ((0, 0, 0) : Pt)
    simpa using h

lemma co_make_rect (bm : BMesh) (x y z : ℚ) :
    ((make_rect bm x y z).2).map (make_rect bm x y z).1.co
      = [(x, y, z), (-x, y, z), (-x, -y, z), (x, -y, z)] :=
  mapState_vertsNew_co _ bm

lemma co_make_tri (bm : BMesh) (x y z : ℚ) :
    ((make_tri bm x y z).2).map (make_tri bm x y z).1.co
      = [(x, y / 3, z), (-x, y / 3, z), (0, -y / (1.5 : ℚ), z)] :=
  mapState_vertsNew_co _ bm

/-- C7: `make_rect` returns exactly 4 vertices whose coordinates are, in
order, `(x,y,z), (-x,y,z), (-x,-y,z), (x,-y,z)`; and whenever `x ≠ 0` and
`y ≠ 0`, every pair of cyclically consecutive vertices in that order has
distinct coordinates. -/
theorem make_rect_coords_and_distinct (bm : BMesh) (x y z : ℚ) :
    ((make_rect bm x y z).2).map (make_rect bm x y z).1.co
        = [(x, y, z), (-x, y, z), (-x, -y, z), (x, -y, z)]
      ∧ (x ≠ 0 → y ≠ 0 →
          ∀ p ∈ pairwise_cyclic
              (((make_rect bm x y z).2).map (make_rect bm x y z).1.co),
            p.1 ≠ p.2) := by
  refine ⟨co_make_rect bm x y z, fun hx hy p hp => ?_⟩
  rw [co_make_rect bm x y z] at hp
  simp only [pairwise_cyclic, List.zip, List.zipWith, List.mem_cons,
    List.not_mem_nil, or_false] at hp
  rcases hp with h | h | h | h <;> subst h <;>
    (intro hc; simp only [Prod.mk.injEq] at hc)
  · exact hx (by linarith [hc.1])
  · exact hy (by linarith [hc.2.1])
  · exact hx (by linarith [hc.1])
  · exact hy (by linarith [hc.2.1])

/-- C8: the barycenter of the 3 vertex coordinates returned by
`make_tri(mesh, x, y, z)` is exactly `(0, 0, z)`, the coordinate sum being
`(0, 0, 3*z)` under exact arithmetic. -/
theorem make_tri_barycenter (bm : BMesh) (x y z : ℚ) :
    ptSum (((make_tri bm x y z).2).map (make_tri bm x y z).1.co)
        = (0, 0, 3 * z)
      ∧ barycenter (((make_tri bm x y z).2).map (make_tri bm x y z).1.co)
        = (0, 0, z) := by
  have hco := co_make_tri bm x y z
  rw [hco]
  have hsum : ptSum [(x, y / 3, z), (-x, y / 3, z), (0, -y / (1.5 : ℚ), z)]
      = (0, 0, 3 * z) := by
    simp only [ptSum, List.foldl, Prod.ext_iff]
    norm_num
    constructor <;> ring
  refine ⟨hsum, ?_⟩
  simp only [barycenter, hsum]
  norm_num

/-- Witness for C7 at `x = 1, y = 1, z = 0` on the empty mesh. -/
theorem make_rect_coords_and_distinct_witness :
    ((make_rect {} 1 1 0).2).map (make_rect {} 1 1 0).1.co
        = [(1, 1, 0), (-1, 1, 0), (-1, -1, 0), (1, -1, 0)]
      ∧ ∀ p ∈ pairwise_cyclic
            (((make_rect {} 1 1 0).2).map (make_rect {} 1 1 0).1.co),
          p.1 ≠ p.2 :=
  ⟨(make_rect_coords_and_distinct {} 1 1 0).1,
   (make_rect_coords_and_distinct {} 1 1 0).2 (by norm_num) (by norm_num)⟩

-- Ring topology builders: make_edges and bridge_verts

/-- `bm.edges.new((va, vb))`: records a new edge in the mesh and returns it
(as its vertex-id pair).  Kernel duplicate-edge errors are not modelled:
spec §6 treats kernel operations as total on well-formed input. -/
def edgesNew (bm : BMesh) (pair : Nat × Nat) : BMesh × (Nat × Nat) :=
  ({ bm with medges := bm.medges ++ [pair] }, pair)

/-- `make_edges(bm, verts)` from `src/lib/mesh.py`:
`[bm.edges.new(x) for x in pairwise_cyclic(verts)]`. -/
def make_edges (bm : BMesh) (verts : List Nat) : BMesh × List (Nat × Nat) :=
  mapState edgesNew bm (pairwise_cyclic verts)

/-- A kernel face: the ordered cyclic list of its vertex ids. -/
structure Face where
  fverts : List Nat
deriving DecidableEq

/-- `f.edges`: a face's edge cycle pairs consecutive vertices cyclically, so
edge `i` connects vertex `i` and vertex `(i+1) mod n` of the face. -/
def Face.edges (f : Face) : List (Nat × Nat) := pairwise_cyclic f.fverts

/-- `bm.faces.new(vlist)`: records a new face and returns it. -/
def facesNew (bm : BMesh) (vlist : List Nat) : BMesh × Face :=
  ({ bm with mfaces := bm.mfaces ++ [vlist] }, ⟨vlist⟩)

/-- 4-way zip, truncating to the shortest input (Python `zip` semantics). -/
def zip4 {α β γ δ : Type} : List α → List β → List γ → List δ →
    List (α × β × γ × δ)
  | a :: as, b :: bs, c :: cs, d :: ds => (a, b, c, d) :: zip4 as bs cs ds
  | _, _, _, _ => []

/-- Modelled from the spec: `quadwise_cyclic` lives in `lib/iterutils.py`,
which `mesh.py` imports but which is absent from `src/`.  Spec §4.2: for
rings `a`, `b` it yields, at each ring position `i`, the quad joining the
consecutive pair `(a_i, a_{(i+1) mod N})` of one ring to the corresponding
pair of the other, wound so that the second edge of the face built from the
quad is the cross-connecting rung `(a_{(i+1) mod N}, b_{(i+1) mod N})`. -/
def quadwise_cyclic {α : Type} (a b : List α) : List (α × α × α × α) :=
  match a, b with
  | x :: xs, y :: ys => zip4 (x :: xs) (xs ++ [x]) (ys ++ [y]) (y :: ys)
  | _, _ => []

/-- The dict `{"faces": ..., "edges": ...}` returned by `bridge_verts`. -/
structure BridgeResult where
  faces : List Face
  edges : List (Nat × Nat)
deriving DecidableEq

/-- `bridge_verts(bm, v1, v2)` from `src/lib/mesh.py`:
`faces = [bm.faces.new(x) for x in quadwise_cyclic(v1, v2)]`,
`edges = [f.edges[1] for f in faces]`. -/
def bridge_verts (bm : BMesh) (v1 v2 : List Nat) : BMesh × BridgeResult :=
  let fs := mapState facesNew bm
    ((quadwise_cyclic v1 v2).map (fun q => [q.1, q.2.1, q.2.2.1, q.2.2.2]))
  (fs.1, { faces := fs.2, edges := fs.2.map (fun f => f.edges.getD 1 (0, 0)) })

-- Evaluation lemmas for the ring builders

lemma mapState_output_map {St A B : Type} (f : St → A → St × B) (h : A → B)
    (hf : ∀ st a, (f st a).2 = h a) :
    ∀ (l : List A) (st : St), (mapState f st l).2 = l.map h := by
  intro l
  induction l with
  | nil => intro st; simp [mapState]
  | cons a rest ih => intro st; simp [mapState, hf, ih]

lemma make_edges_snd (bm : BMesh) (verts : List Nat) :
    (make_edges bm verts).2 = pairwise_cyclic verts := by
  rw [make_edges, mapState_output_map edgesNew id (fun st a => rfl)]
  simp

lemma pairwise_cyclic_length {α : Type} (l : List α) :
    (pairwise_cyclic l).length = l.length := by
  cases l with
  | nil => rfl
  | cons x xs => simp [pairwise_cyclic]

lemma getD_rotate {α : Type} (x : α) (xs : List α) (i : Nat) (d : α)
    (hi : i < xs.length + 1) :
    (xs ++ [x]).getD i d = (x :: xs).getD ((i + 1) % (xs.length + 1)) d := by
  rcases Nat.lt_or_ge i xs.length with h | h
  · rw [List.getD_append _ _ _ _ h, Nat.mod_eq_of_lt (by omega),
      List.getD_cons_succ]
  · have hix : i = xs.length := by omega
    subst hix
    rw [List.getD_append_right _ _ _ _ (le_refl _), Nat.sub_self,
      Nat.mod_self]
    simp

lemma getD_zip {α β : Type} (l1 : List α) (l2 : List β) (i : Nat)
    (d1 : α) (d2 : β) (h1 : i < l1.length) (h2 : i < l2.length) :
    (l1.zip l2).getD i (d1, d2) = (l1.getD i d1, l2.getD i d2) := by
  rw [List.getD_eq_getElem _ _ (by rw [List.length_zip]; omega),
    List.getD_eq_getElem _ _ h1, List.getD_eq_getElem _ _ h2,
    List.getElem_zip]

lemma pairwise_cyclic_getD {α : Type} (l : List α) (i : Nat) (d : α)
    (hi : i < l.length) :
    (pairwise_cyclic l).getD i (d, d)
      = (l.getD i d, l.getD ((i + 1) % l.length) d) := by
  cases l with
  | nil => simp at hi
  | cons x xs =>
    have hi' : i < xs.length + 1 := by simpa using hi
    rw [pairwise_cyclic,
      getD_zip _ _ _ d d (by simpa using hi) (by simp; omega),
      getD_rotate x xs i d hi']
    simp

/-- C5: for an ordered ring of `N ≥ 3` vertices, `make_edges` returns
exactly `N` edges in ring order, the `i`-th connecting vertex `i` to vertex
`(i+1) mod N`; hence the multiset of connected vertex pairs is exactly the
consecutive cyclic pairs. -/
theorem make_edges_ring (bm : BMesh) (verts : List Nat)
    (h : 3 ≤ verts.length) :
    (make_edges bm verts).2.length = verts.length
      ∧ ∀ i, i < verts.length →
          (make_edges bm verts).2.getD i (0, 0)
            = (verts.getD i 0, verts.getD ((i + 1) % verts.length) 0) := by
  rw [make_edges_snd]
  exact ⟨pairwise_cyclic_length verts,
    fun i hi => pairwise_cyclic_getD verts i 0 hi⟩

/-- Witness for C5 on the ring `[0, 1, 2]`. -/
theorem make_edges_ring_witness :
    3 ≤ ([0, 1, 2] : List Nat).length
      ∧ ((make_edges {} [0, 1, 2]).2.length = ([0, 1, 2] : List Nat).length
          ∧ ∀ i, i < ([0, 1, 2] : List Nat).length →
              (make_edges {} [0, 1, 2]).2.getD i (0, 0)
                = (([0, 1, 2] : List Nat).getD i 0,
                   ([0, 1, 2] : List Nat).getD
                     ((i + 1) % ([0, 1, 2] : List Nat).length) 0)) :=
  ⟨by decide, make_edges_ring {} [0, 1, 2] (by decide)⟩

lemma zip4_length_eq {α β γ δ : Type} :
    ∀ (as : List α) (bs : List β) (cs : List γ) (ds : List δ),
      as.length = bs.length → as.length = cs.length → as.length = ds.length →
      (zip4 as bs cs ds).length = as.length := by
  intro as
  induction as with
  | nil =>
    intro bs cs ds h1 h2 h3
    cases bs <;> cases cs <;> cases ds <;> rfl
  | cons a as ih =>
    intro bs cs ds h1 h2 h3
    cases bs with
    | nil => simp at h1
    | cons b bs =>
      cases cs with
      | nil => simp at h2
      | cons c cs =>
        cases ds with
        | nil => simp at h3
        | cons d ds =>
          simp only [zip4, List.length_cons]
          rw [ih bs cs ds (by simpa using h1) (by simpa using h2)
            (by simpa using h3)]

lemma zip4_getD {α β γ δ : Type} (d1 : α) (d2 : β) (d3 : γ) (d4 : δ) :
    ∀ (as : List α) (bs : List β) (cs : List γ) (ds : List δ) (i : Nat),
      i < as.length → i < bs.length → i < cs.length → i < ds.length →
      (zip4 as bs cs ds).getD i (d1, d2, d3, d4)
        = (as.getD i d1, bs.getD i d2, cs.getD i d3, ds.getD i d4) := by
  intro as
  induction as with
  | nil => intro bs cs ds i h1; simp at h1
  | cons a as ih =>
    intro bs cs ds i h1 h2 h3 h4
    cases bs with
    | nil => simp at h2
    | cons b bs =>
      cases cs with
      | nil => simp at h3
      | cons c cs =>
        cases ds with
        | nil => simp at h4
        | cons d ds =>
          cases i with
          | zero => rfl
          | succ i =>
            simp only [zip4, List.getD_cons_succ]
            exact ih bs cs ds i (by simpa using h1) (by simpa using h2)
              (by simpa using h3) (by simpa using h4)

lemma quadwise_cyclic_length {α : Type} (a b : List α)
    (h : a.length = b.length) :
    (quadwise_cyclic a b).length = a.length := by
  cases a with
  | nil => cases b with | nil => rfl | cons y ys => simp at h
  | cons x xs =>
    cases b with
    | nil => simp at h
    | cons y ys =>
      have hlen : xs.length = ys.length := by simpa using h
      rw [quadwise_cyclic]
      exact zip4_length_eq _ _ _ _ (by simp) (by simp [hlen]) (by simp [hlen])

lemma quadwise_cyclic_getD {α : Type} (a b : List α) (d : α) (i : Nat)
    (h : a.length = b.length) (hi : i < a.length) :
    (quadwise_cyclic a b).getD i (d, d, d, d)
      = (a.getD i d, a.getD ((i + 1) % a.length) d,
         b.getD ((i + 1) % b.length) d, b.getD i d) := by
  cases a with
  | nil => simp at hi
  | cons x xs =>
    cases b with
    | nil => simp at h
    | cons y ys =>
      have hlen : xs.length = ys.length := by simpa using h
      have hi' : i < xs.length + 1 := by simpa using hi
      rw [quadwise_cyclic,
        zip4_getD d d d d _ _ _ _ i (by simpa using hi) (by simp; omega)
          (by simp; omega) (by simp; omega),
        getD_rotate x xs i d hi', getD_rotate y ys i d (by omega)]
      simp [hlen]

lemma bridge_verts_faces (bm : BMesh) (v1 v2 : List Nat) :
    (bridge_verts bm v1 v2).2.faces
      = (quadwise_cyclic v1 v2).map
          (fun q => Face.mk [q.1, q.2.1, q.2.2.1, q.2.2.2]) := by
  rw [bridge_verts]
  show (mapState facesNew bm _).2 = _
  rw [mapState_output_map facesNew Face.mk (fun st a => rfl), List.map_map]
  rfl

lemma bridge_verts_edges (bm : BMesh) (v1 v2 : List Nat) :
    (bridge_verts bm v1 v2).2.edges
      = (bridge_verts bm v1 v2).2.faces.map
          (fun f => f.edges.getD 1 (0, 0)) := by
  rfl

/-- C4: for two vertex rings of equal length `N`, `bridge_verts` produces
exactly `N` faces, each with exactly 4 edges, and returns exactly `N` rung
edges; the `i`-th rung edge is the second edge (index 1) of the `i`-th
face's edge cycle and connects vertex `(i+1) mod N` of `ringA` to the
corresponding vertex of `ringB`. -/
theorem bridge_verts_spec (bm : BMesh) (v1 v2 : List Nat)
    (h : v1.length = v2.length) :
    (bridge_verts bm v1 v2).2.faces.length = v1.length
      ∧ (∀ f ∈ (bridge_verts bm v1 v2).2.faces, f.edges.length = 4)
      ∧ (bridge_verts bm v1 v2).2.edges.length = v1.length
      ∧ ∀ i, i < v1.length →
          (bridge_verts bm v1 v2).2.edges.getD i (0, 0)
              = ((bridge_verts bm v1 v2).2.faces.getD i ⟨[]⟩).edges.getD
                  1 (0, 0)
            ∧ (bridge_verts bm v1 v2).2.edges.getD i (0, 0)
              = (v1.getD ((i + 1) % v1.length) 0,
                 v2.getD ((i + 1) % v2.length) 0) := by
  have hq := quadwise_cyclic_length v1 v2 h
  have hfaces : (bridge_verts bm v1 v2).2.faces.length = v1.length := by
    rw [bridge_verts_faces, List.length_map, hq]
  refine ⟨hfaces, ?_, ?_, ?_⟩
  · intro f hf
    rw [bridge_verts_faces] at hf
    obtain ⟨q, hqmem, hfq⟩ := List.mem_map.mp hf
    subst hfq
    rfl
  · rw [bridge_verts_edges, List.length_map, hfaces]
  · intro i hi
    have hif : i < (bridge_verts bm v1 v2).2.faces.length := by
      rw [hfaces]; exact hi
    have hface : (bridge_verts bm v1 v2).2.faces.getD i ⟨[]⟩
        = Face.mk [v1.getD i 0, v1.getD ((i + 1) % v1.length) 0,
                   v2.getD ((i + 1) % v2.length) 0, v2.getD i 0] := by
      rw [bridge_verts_faces, List.getD_eq_getElem _ _ (by simpa [hq] using hi),
        List.getElem_map, ← List.getD_eq_getElem _ ((0, 0, 0, 0) : Nat × Nat × Nat × Nat)
          (by rw [hq]; exact hi),
        quadwise_cyclic_getD v1 v2 0 i h hi]
    have hedge : (bridge_verts bm v1 v2).2.edges.getD i (0, 0)
        = ((bridge_verts bm v1 v2).2.faces.getD i ⟨[]⟩).edges.getD 1 (0, 0) := by
      rw [bridge_verts_edges,
        List.getD_eq_getElem _ _ (by rw [List.length_map]; exact hif),
        List.getElem_map, ← List.getD_eq_getElem _ (Face.mk []) hif]
    refine ⟨hedge, ?_⟩
    rw [hedge, hface]
    rfl

/-- Witness for C4 on the rings `[0, 1, 2]` and `[3, 4, 5]`. -/
theorem bridge_verts_spec_witness :
    ([0, 1, 2] : List Nat).length = ([3, 4, 5] : List Nat).length
      ∧ ((bridge_verts {} [0, 1, 2] [3, 4, 5]).2.faces.length
            = ([0, 1, 2] : List Nat).length
          ∧ (∀ f ∈ (bridge_verts {} [0, 1, 2] [3, 4, 5]).2.faces,
              f.edges.length = 4)
          ∧ (bridge_verts {} [0, 1, 2] [3, 4, 5]).2.edges.length
            = ([0, 1, 2] : List Nat).length
          ∧ ∀ i, i < ([0, 1, 2] : List Nat).length →
              (bridge_verts {} [0, 1, 2] [3, 4, 5]).2.edges.getD i (0, 0)
                  = ((bridge_verts {} [0, 1, 2] [3, 4, 5]).2.faces.getD
                      i ⟨[]⟩).edges.getD 1 (0, 0)
                ∧ (bridge_verts {} [0, 1, 2] [3, 4, 5]).2.edges.getD i (0, 0)
                  = (([0, 1, 2] : List Nat).getD
                       ((i + 1) % ([0, 1, 2] : List Nat).length) 0,
                     ([3, 4, 5] : List Nat).getD
                       ((i + 1) % ([3, 4, 5] : List Nat).length) 0)) :=
  ⟨by decide, bridge_verts_spec {} [0, 1, 2] [3, 4, 5] (by decide)⟩

-- Duplication

/-- The kernel operation `bmesh.ops.duplicate(bm, geom=verts)` restricted to
a vertex-only selection (spec §4.3): clones the listed vertices, appending
the copies to the mesh, and returns the newly created vertices. -/
def bmesh_ops_duplicate (bm : BMesh) (geom : List Nat) : BMesh × List Nat :=
  ({ bm with
      verts := bm.verts ++ geom.map (fun g => bm.verts.getD g (0, 0, 0)) },
   List.range' bm.verts.length geom.length)

/-- `v.co.z = z`: overwrite only the z component of a coordinate. -/
def setZ (p : Pt) (z : ℚ) : Pt := (p.1, p.2.1, z)

/-- One `v.co.z = z` assignment on vertex `i` of a vertex table. -/
def setVertZ (zv : ℚ) (vs : List Pt) (i : Nat) : List Pt :=
  vs.set i (setZ (vs.getD i (0, 0, 0)) zv)

/-- `duplicate_verts(bm, verts, z)` from `src/lib/mesh.py`: duplicate the
selection, keep the vertices of the new geometry (with a vertex-only
selection, all of it), and — if `z` is given — run `v.co.z = z` over every
new vertex.  Returns the new vertices. -/
def duplicate_verts (bm : BMesh) (verts : List Nat) (z : Option ℚ) :
    BMesh × List Nat :=
  let dup := bmesh_ops_duplicate bm verts
  let nverts := dup.2
  match z with
  | none => (dup.1, nverts)
  | some zv => ({ dup.1 with verts := nverts.foldl (setVertZ zv) dup.1.verts },
                nverts)

lemma setVertZ_length (zv : ℚ) (vs : List Pt) (i : Nat) :
    (setVertZ zv vs i).length = vs.length := by
  simp [setVertZ]

lemma foldl_setVertZ_length (zv : ℚ) :
    ∀ (idxs : List Nat) (vs : List Pt),
      (idxs.foldl (setVertZ zv) vs).length = vs.length := by
  intro idxs
  induction idxs with
  | nil => intro vs; rfl
  | cons i rest ih =>
    intro vs
    rw [List.foldl_cons, ih, setVertZ_length]

lemma foldl_setVertZ_getD_notmem (zv : ℚ) :
    ∀ (idxs : List Nat) (vs : List Pt) (j : Nat), j ∉ idxs →
      (idxs.foldl (setVertZ zv) vs).getD j (0, 0, 0) = vs.getD j (0, 0, 0) := by
  intro idxs
  induction idxs with
  | nil => intro vs j _; rfl
  | cons i rest ih =>
    intro vs j hj
    rw [List.foldl_cons, ih _ j (fun hm => hj (List.mem_cons_of_mem i hm))]
    rw [List.getD_eq_getElem?_getD, List.getD_eq_getElem?_getD, setVertZ,
      List.getElem?_set_ne
        (fun he => hj (by rw [← he]; exact List.mem_cons_self i rest))]

lemma foldl_setVertZ_getD_mem (zv : ℚ) :
    ∀ (idxs : List Nat) (vs : List Pt) (j : Nat), idxs.Nodup → j ∈ idxs →
      j < vs.length →
      (idxs.foldl (setVertZ zv) vs).getD j (0, 0, 0)
        = setZ (vs.getD j (0, 0, 0)) zv := by
  intro idxs
  induction idxs with
  | nil => intro vs j _ hj; simp at hj
  | cons i rest ih =>
    intro vs j hnd hj hlt
    rcases List.mem_cons.mp hj with hji | hjr
    · subst hji
      have hnot : j ∉ rest := (List.nodup_cons.mp hnd).1
      rw [List.foldl_cons, foldl_setVertZ_getD_notmem zv rest _ j hnot,
        setVertZ, List.getD_eq_getElem?_getD,
        List.getElem?_set_eq_of_lt _ hlt]
      rfl
    · have hji : j ≠ i := by
        intro he
        exact (List.nodup_cons.mp hnd).1 (he ▸ hjr)
      rw [List.foldl_cons,
        ih _ j (List.nodup_cons.mp hnd).2 hjr (by rw [setVertZ_length]; exact hlt)]
      congr 1
      rw [List.getD_eq_getElem?_getD, List.getD_eq_getElem?_getD, setVertZ,
        List.getElem?_set_ne (fun he => hji he.symm)]

/-- C6: `duplicate_verts(bm, V, z=Z)` returns exactly `|V|` newly created
vertices (indices past the original vertex table), every returned vertex
has z-coordinate exactly `Z`, and the coordinates — in particular the
z-coordinates — of the original vertices in `V` are unchanged. -/
theorem duplicate_verts_spec (bm : BMesh) (V : List Nat) (Z : ℚ)
    (hV : ∀ v ∈ V, v < bm.verts.length) :
    (duplicate_verts bm V (some Z)).2.length = V.length
      ∧ (∀ i ∈ (duplicate_verts bm V (some Z)).2, bm.verts.length ≤ i)
      ∧ (∀ i ∈ (duplicate_verts bm V (some Z)).2,
          ((duplicate_verts bm V (some Z)).1.co i).2.2 = Z)
      ∧ ∀ v ∈ V, (duplicate_verts bm V (some Z)).1.co v = bm.co v := by
  have hsnd : (duplicate_verts bm V (some Z)).2
      = List.range' bm.verts.length V.length := by
    simp [duplicate_verts, bmesh_ops_duplicate]
  have hfst : (duplicate_verts bm V (some Z)).1.verts
      = (List.range' bm.verts.length V.length).foldl (setVertZ Z)
          (bm.verts ++ V.map (fun g => bm.verts.getD g (0, 0, 0))) := by
    simp [duplicate_verts, bmesh_ops_duplicate]
  refine ⟨by rw [hsnd]; simp, ?_, ?_, ?_⟩
  · intro i hi
    rw [hsnd] at hi
    exact (List.mem_range'_1.mp hi).1
  · intro i hi
    rw [hsnd] at hi
    obtain ⟨hle, hlt⟩ := List.mem_range'_1.mp hi
    rw [BMesh.co, hfst,
      foldl_setVertZ_getD_mem Z _ _ i (List.nodup_range' _ _) hi
        (by simp; omega)]
    rfl
  · intro v hv
    have hvn : v < bm.verts.length := hV v hv
    have hnot : v ∉ List.range' bm.verts.length V.length := by
      intro hm
      exact absurd (List.mem_range'_1.mp hm).1 (by omega)
    rw [BMesh.co, BMesh.co, hfst, foldl_setVertZ_getD_notmem Z _ _ v hnot,
      List.getD_append _ _ _ _ hvn]

/-- Witness for C6: a 2-vertex mesh, duplicating both vertices at `z = 5`. -/
theorem duplicate_verts_spec_witness :
    (∀ v ∈ ([0, 1] : List Nat), v < (BMesh.mk [(1, 2, 3), (4, 5, 6)] [] []).verts.length)
      ∧ ((duplicate_verts (BMesh.mk [(1, 2, 3), (4, 5, 6)] [] []) [0, 1] (some 5)).2.length
            = ([0, 1] : List Nat).length
          ∧ (∀ i ∈ (duplicate_verts (BMesh.mk [(1, 2, 3), (4, 5, 6)] [] []) [0, 1] (some 5)).2,
              (BMesh.mk [(1, 2, 3), (4, 5, 6)] [] []).verts.length ≤ i)
          ∧ (∀ i ∈ (duplicate_verts (BMesh.mk [(1, 2, 3), (4, 5, 6)] [] []) [0, 1] (some 5)).2,
              ((duplicate_verts (BMesh.mk [(1, 2, 3), (4, 5, 6)] [] []) [0, 1] (some 5)).1.co i).2.2 = 5)
          ∧ ∀ v ∈ ([0, 1] : List Nat),
              (duplicate_verts (BMesh.mk [(1, 2, 3), (4, 5, 6)] [] []) [0, 1] (some 5)).1.co v
                = (BMesh.mk [(1, 2, 3), (4, 5, 6)] [] []).co v) :=
  ⟨by decide, duplicate_verts_spec (BMesh.mk [(1, 2, 3), (4, 5, 6)] [] []) [0, 1] 5
    (by decide)⟩

-- Geometric measurement: est_volume and est_curve_length.
-- Calls that may raise are embedded in Except; the error value carries the
-- observable state at the point the exception escapes the function.

instance {ε α : Type} [DecidableEq ε] [DecidableEq α] :
    DecidableEq (Except ε α) := fun a b =>
  match a, b with
  | .error e1, .error e2 =>
    if h : e1 = e2 then .isTrue (by rw [h])
    else .isFalse (fun hc => h (by cases hc; rfl))
  | .error _, .ok _ => .isFalse (fun hc => Except.noConfusion hc)
  | .ok a1, .ok a2 =>
    if h : a1 = a2 then .isTrue (by rw [h])
    else .isFalse (fun hc => h (by cases hc; rfl))
  | .ok _, .error _ => .isFalse (fun hc => Except.noConfusion hc)

/-- Kernel-side resources live across `est_volume`: the temporary merged
bmesh (`bmesh.new()` / `bm.free()`) and the per-object evaluated-mesh
snapshots (`ob_eval.to_mesh()` / `ob_eval.to_mesh_clear()`). -/
structure ResSt where
  live_bmesh : Nat
  live_snapshots : Nat
deriving DecidableEq

/-- The per-object loop of `est_volume`: for each object, obtain the
evaluated world-space mesh snapshot (`ob_eval.to_mesh()` followed by
`me.transform(ob.matrix_world)`, supplied by the `toMesh` oracle, which may
raise), feed it to the merged bmesh (`bm.from_mesh(me)`), and clear the
snapshot (`ob_eval.to_mesh_clear()`).  An exception propagates with the
resource state at the raise point. -/
def est_volume_loop (toMesh : Nat → Except Unit (List ℚ)) :
    List Nat → ResSt → List ℚ → Except ResSt (ResSt × List ℚ)
  | [], st, acc => .ok (st, acc)
  | ob :: rest, st, acc =>
    match toMesh ob with
    | .error _ => .error st
    | .ok me =>
      let st1 : ResSt := { st with live_snapshots := st.live_snapshots + 1 }
      let st2 : ResSt := { st1 with live_snapshots := st1.live_snapshots - 1 }
      est_volume_loop toMesh rest st2 (acc ++ me)

/-- `est_volume(obs)` from `src/lib/mesh.py`: allocate a merged bmesh
(`bmesh.new()`), run the per-object loop, triangulate and compute the
volume (`calcVolume`, the kernel's `bmesh.ops.triangulate` +
`bm.calc_volume()`), free the bmesh, return the volume.  There is no
try/finally: an exception raised in the loop propagates before `bm.free()`
is reached. -/
def est_volume (toMesh : Nat → Except Unit (List ℚ))
    (calcVolume : List ℚ → ℚ) (obs : List Nat) : Except ResSt (ℚ × ResSt) :=
  let st0 : ResSt := ⟨1, 0⟩
  match est_volume_loop toMesh obs st0 [] with
  | .error st => .error st
  | .ok (st, tris) =>
    let vol := calcVolume tris
    .ok (vol, { st with live_bmesh := st.live_bmesh - 1 })

/-- C3: the claim says the temporary merged mesh is freed before return on
every exit path, including error paths.  On the normal path it is freed
(`live_bmesh = 0` in the result), but the code has no guaranteed-cleanup
construct: when the snapshot acquisition for the single input object
raises, the call exits with `live_bmesh = 1` — the temporary bmesh is
leaked, contradicting the claim. -/
theorem est_volume_leaks_bmesh_on_error :
    est_volume (fun _ => Except.ok []) (fun _ => 0) [0]
        = Except.ok (0, ⟨0, 0⟩)
      ∧ est_volume (fun _ => Except.error ()) (fun _ => 0) [0]
        = Except.error ⟨1, 0⟩
      ∧ (⟨1, 0⟩ : ResSt).live_bmesh ≠ 0 := by
  refine ⟨by decide, by decide, by decide⟩

/-- The three curve-shape-affecting properties `est_curve_length`
temporarily zeroes: `bevel_object`, `bevel_depth`, `extrude`. -/
structure CurveProps where
  bevel_object : Option Nat
  bevel_depth : ℚ
  extrude : ℚ
deriving DecidableEq

/-- A curve object: its modifier stack and its curve data's
shape-affecting properties. -/
structure CurveOb where
  modifiers : List Nat
  data : CurveProps
deriving DecidableEq

/-- `est_curve_length(ob)` from `src/lib/mesh.py`.  With modifiers: the
`settings` loop reads each of the three properties into the saved dict and
writes the reset value (`None`, `0.0`, `0.0`), unrolled here key by key in
dict order; then the evaluated mesh's edge lengths are obtained and summed
(`evalEdgeLengths` oracle — depsgraph evaluation, `to_mesh`, `transform`,
`bm.edges` with `edge.calc_length()` — which may raise); then the restore
loop writes the saved values back.  There is no try/finally: an exception
in the calculate-length step propagates with the properties still reset.
Without modifiers: the data is copied, transformed, and each spline's
analytic arclength (`splineLengths` oracle) is summed; the copy is removed
and the object is untouched. -/
def est_curve_length (evalEdgeLengths : CurveOb → Except Unit (List ℚ))
    (splineLengths : CurveOb → List ℚ) (ob : CurveOb) :
    Except CurveOb (ℚ × CurveOb) :=
  if ob.modifiers ≠ [] then
    let x1 := ob.data.bevel_object
    let ob1 : CurveOb := { ob with data := { ob.data with bevel_object := none } }
    let x2 := ob1.data.bevel_depth
    let ob2 : CurveOb := { ob1 with data := { ob1.data with bevel_depth := 0 } }
    let x3 := ob2.data.extrude
    let ob3 : CurveOb := { ob2 with data := { ob2.data with extrude := 0 } }
    match evalEdgeLengths ob3 with
    | .error _ => .error ob3
    | .ok lens =>
      let length := lens.foldl (· + ·) 0
      let ob4 : CurveOb := { ob3 with data := { ob3.data with bevel_object := x1 } }
      let ob5 : CurveOb := { ob4 with data := { ob4.data with bevel_depth := x2 } }
      let ob6 : CurveOb := { ob5 with data := { ob5.data with extrude := x3 } }
      .ok (length, ob6)
  else
    let lens := splineLengths ob
    .ok (lens.foldl (· + ·) 0, ob)

/-- A curve object with one modifier and nonzero shape properties. -/
def curveOb0 : CurveOb := ⟨[0], ⟨some 7, 1, 2⟩⟩

/-- C1: the claim says that after any invocation of `est_curve_length` on a
curve with modifiers — including one whose length-summation step raises —
the `bevel_object`/`bevel_depth`/`extrude` properties equal their pre-call
values.  On the normal path they are restored, but the code has no
guaranteed-cleanup construct: when the calculate-length step raises, the
call exits with the properties still reset to `(None, 0, 0)`, not their
pre-call values `(7, 1, 2)` — contradicting the claim. -/
theorem est_curve_length_no_restore_on_error :
    est_curve_length (fun _ => Except.ok []) (fun _ => []) curveOb0
        = Except.ok (0, curveOb0)
      ∧ est_curve_length (fun _ => Except.error ()) (fun _ => []) curveOb0
        = Except.error ⟨[0], ⟨none, 0, 0⟩⟩
      ∧ (⟨none, 0, 0⟩ : CurveProps) ≠ curveOb0.data := by
  refine ⟨by decide, by decide, by decide⟩

-- Loop traversal: edge_loop_expand

/-- The kernel's loop/link topology, black-box per spec §6: loops are
addressed by id; each loop knows its edge, its next/previous loop in the
face winding, and its radial next/previous loop around its edge; each edge
knows its list of link loops. -/
structure LoopTopo where
  loop_edge : Nat → Nat
  loop_next : Nat → Nat
  loop_prev : Nat → Nat
  loop_radial_next : Nat → Nat
  loop_radial_prev : Nat → Nat
  edge_link_loops : Nat → List Nat

/-- One iteration of `edge_loop_expand`'s `for _ in range(1, limit)` body:
advance the forward cursor by `link_loop_next.link_loop_radial_next.link_loop_next`,
the backward cursor by `link_loop_prev.link_loop_radial_prev.link_loop_prev`,
and append both cursors' edges. -/
def expandStep (m : LoopTopo) (s : Nat × Nat × List Nat) : Nat × Nat × List Nat :=
  let loop_next := m.loop_next (m.loop_radial_next (m.loop_next s.1))
  let loop_prev := m.loop_prev (m.loop_radial_prev (m.loop_prev s.2.1))
  (loop_next, loop_prev,
   s.2.2 ++ [m.loop_edge loop_next, m.loop_edge loop_prev])

/-- `edge_loop_expand(e, limit=0)` from `src/lib/mesh.py`: start both
cursors at `e.link_loops[0]` (an exception — `none` — if the edge has no
link loops), seed the output with `e`, then run the loop body
`limit - 1` times (Python `range(1, limit)`). -/
def edge_loop_expand (m : LoopTopo) (e : Nat) (limit : Nat := 0) :
    Option (List Nat) :=
  match m.edge_link_loops e with
  | [] => none
  | loop :: _ =>
    some (((List.range' 1 (limit - 1)).foldl (fun s _ => expandStep m s)
      (loop, loop, [e])).2.2)

lemma foldl_expandStep_acc (m : LoopTopo) :
    ∀ (itr : List Nat) (s : Nat × Nat × List Nat),
      ((itr.foldl (fun s _ => expandStep m s) s).2.2).length
          = s.2.2.length + 2 * itr.length
        ∧ ((itr.foldl (fun s _ => expandStep m s) s).2.2).take s.2.2.length
          = s.2.2.take s.2.2.length := by
  intro itr
  induction itr with
  | nil => intro s; exact ⟨by simp, rfl⟩
  | cons a rest ih =>
    intro s
    rw [List.foldl_cons]
    obtain ⟨hlen, htake⟩ := ih (expandStep m s)
    constructor
    · rw [hlen]
      simp only [expandStep, List.length_append, List.length_cons,
        List.length_nil]
      omega
    · have hst : (expandStep m s).2.2.take s.2.2.length = s.2.2 := by
        simp [expandStep]
      calc ((rest.foldl (fun s _ => expandStep m s) (expandStep m s)).2.2).take
              s.2.2.length
          = (((rest.foldl (fun s _ => expandStep m s) (expandStep m s)).2.2).take
              (expandStep m s).2.2.length).take s.2.2.length := by
            rw [List.take_take]
            congr 1
            simp only [expandStep, List.length_append, List.length_cons,
              List.length_nil]
            omega
        _ = ((expandStep m s).2.2.take (expandStep m s).2.2.length).take
              s.2.2.length := by rw [htake]
        _ = s.2.2.take s.2.2.length := by
            rw [List.take_length, hst, List.take_length]

lemma edge_loop_expand_core (m : LoopTopo) (e : Nat) (limit : Nat)
    (h : m.edge_link_loops e ≠ []) :
    ∃ l, edge_loop_expand m e limit = some l
      ∧ l.length = 1 + 2 * (limit - 1) ∧ l.take 1 = [e] := by
  rcases hll : m.edge_link_loops e with _ | ⟨loop, rest⟩
  · exact absurd hll h
  refine ⟨((List.range' 1 (limit - 1)).foldl (fun s _ => expandStep m s)
      (loop, loop, [e])).2.2, ?_, ?_, ?_⟩
  · rw [edge_loop_expand, hll]
  · have := (foldl_expandStep_acc m (List.range' 1 (limit - 1))
      (loop, loop, [e])).1
    simpa using this
  · have := (foldl_expandStep_acc m (List.range' 1 (limit - 1))
      (loop, loop, [e])).2
    simpa using this

/-- C10: for every seed edge `e` (lying on at least one face loop) and every
limit, `edge_loop_expand(e, limit)` returns a list of exactly
`1 + 2 * max(0, limit - 1)` edges whose first element is `e`; in
particular, with the default limit of 0 it returns `[e]`. -/
theorem edge_loop_expand_count (m : LoopTopo) (e : Nat) (limit : Nat)
    (h : m.edge_link_loops e ≠ []) :
    ∃ l, edge_loop_expand m e limit = some l
      ∧ l.length = 1 + 2 * (limit - 1) ∧ l.take 1 = [e]
      ∧ (limit = 0 → l = [e]) := by
  obtain ⟨l, hsome, hlen, hhead⟩ := edge_loop_expand_core m e limit h
  refine ⟨l, hsome, hlen, hhead, fun h0 => ?_⟩
  subst h0
  have hl1 : l.length = 1 := by simpa using hlen
  have htl : l.take 1 = l := by
    rw [← hl1]
    exact List.take_length l
  rw [← htl]
  exact hhead

/-- A concrete loop topology: a single loop `0` closing on itself, every
edge's link-loop list being `[0]`. -/
def loopTopo0 : LoopTopo :=
  ⟨fun _ => 0, fun _ => 0, fun _ => 0, fun _ => 0, fun _ => 0, fun _ => [0]⟩

/-- Witness for C10 at `e = 5`, `limit = 3` on `loopTopo0`. -/
theorem edge_loop_expand_count_witness :
    loopTopo0.edge_link_loops 5 ≠ []
      ∧ ∃ l, edge_loop_expand loopTopo0 5 3 = some l
          ∧ l.length = 1 + 2 * (3 - 1) ∧ l.take 1 = [5]
          ∧ ((3 : Nat) = 0 → l = [5]) :=
  ⟨by decide, edge_loop_expand_count loopTopo0 5 3 (by decide)⟩

/-- Counterexample to C2 as stated: with `limit = 2` the returned list has
3 edges, which exceeds the limit. -/
theorem edge_loop_expand_exceeds_limit :
    edge_loop_expand loopTopo0 5 2 = some [5, 0, 0]
      ∧ ¬ ([5, 0, 0] : List Nat).length ≤ 2 := by
  refine ⟨by decide, by decide⟩

/-- C2 (amended): for every seed edge `e` (lying on at least one face loop)
and every `limit ≥ 1`, `edge_loop_expand(e, limit)` returns a list of
exactly `2 * limit - 1` edges — the seed plus `limit - 1` forward and
`limit - 1` backward expansions — which exceeds `limit` whenever
`limit ≥ 2`. -/
theorem edge_loop_expand_two_limit_sub_one (m : LoopTopo) (e : Nat)
    (limit : Nat) (hlim : 1 ≤ limit) (h : m.edge_link_loops e ≠ []) :
    ∃ l, edge_loop_expand m e limit = some l
      ∧ l.length = 2 * limit - 1 := by
  obtain ⟨l, hsome, hlen, _⟩ := edge_loop_expand_core m e limit h
  exact ⟨l, hsome, by omega⟩

/-- Witness for the amended C2 at `e = 5`, `limit = 2` on `loopTopo0`. -/
theorem edge_loop_expand_two_limit_sub_one_witness :
    1 ≤ 2 ∧ loopTopo0.edge_link_loops 5 ≠ []
      ∧ ∃ l, edge_loop_expand loopTopo0 5 2 = some l
          ∧ l.length = 2 * 2 - 1 :=
  ⟨by decide, by decide,
   edge_loop_expand_two_limit_sub_one loopTopo0 5 2 (by decide) (by decide)⟩

-- The static localization table (src/localization.py)

/-- The `EN` mapping of `locale`, in source order. -/
def locale_en : List (String × String) :=
  [("prongs", "Prongs"),
   ("cutter", "Cutter"),
   ("make_gem", "Make Gemstone"),
   ("make_dupliface", "Make Dupli-face"),
   ("export_options", "Export Options"),
   ("metals", "Metals"),
   ("export_stats", "Export Stats"),
   ("size", "Size"),
   ("shank", "Shank"),
   ("dim", "Dimensions"),
   ("weight", "Weight"),
   ("t_size", "Size:"),
   ("t_width", "Width:"),
   ("t_thickness", "Thickness:"),
   ("t_dim", "Dimensions:"),
   ("t_weight", "Weight:"),
   ("t_settings", "Settings:"),
   ("type", "Type"),
   ("cut", "Cut"),
   ("qty", "Qty"),
   ("items", "items"),
   ("mm", "mm"),
   ("g", "g"),
   ("ct", "ct"),
   ("g/cm", "g/cm³:"),
   ("24kt", "24kt Gold"),
   ("22kt", "22kt Gold"),
   ("18kt_white", "18kt White gold"),
   ("14kt_white", "14kt White gold"),
   ("18kt_yellow", "18kt Yellow gold"),
   ("14kt_yellow", "14kt Yellow gold"),
   ("silver", "Silver"),
   ("palladium", "Palladium"),
   ("platinum", "Platinum"),
   ("custom", "Custom density:"),
   ("custom_name", "Material:"),
   ("diamond", "Diamond"),
   ("zircon", "Zircon"),
   ("topaz", "Topaz"),
   ("emerald", "Emerald"),
   ("ruby", "Ruby"),
   ("sapphire", "Sapphire"),
   ("round", "Round"),
   ("oval", "Oval"),
   ("pearl", "Pearl"),
   ("marquise", "Marquise"),
   ("baguette", "Baguette"),
   ("square", "Square"),
   ("error_file", "First save your blend file"),
   ("error_digit", "Value should be numeric")]

/-- The `RU` mapping of `locale`, in source order. -/
def locale_ru : List (String × String) :=
  [("prongs", "Крапана"),
   ("cutter", "Выборка"),
   ("make_gem", "Создать Камень"),
   ("make_dupliface", "Создать Dupli-face"),
   ("export_options", "Опции Экспорта"),
   ("metals", "Металлы"),
   ("export_stats", "Экспорт Статистики"),
   ("size", "Размер"),
   ("shank", "Шинка"),
   ("dim", "Габариты"),
   ("weight", "Вес"),
   ("t_size", "Размер:"),
   ("t_width", "Ширина:"),
   ("t_thickness", "Толщина:"),
   ("t_dim", "Габариты:"),
   ("t_weight", "Вес:"),
   ("t_settings", "Вставки:"),
   ("type", "Тип"),
   ("cut", "Огранка"),
   ("qty", "Количество"),
   ("items", "шт."),
   ("mm", "мм"),
   ("g", "г"),
   ("ct", "кар"),
   ("g/cm", "г/см³:"),
   ("24kt", "999 Золото"),
   ("22kt", "916 Золото"),
   ("18kt_white", "750 Белое золото"),
   ("14kt_white", "585 Белое золото"),
   ("18kt_yellow", "750 Жёлтое золото"),
   ("14kt_yellow", "585 Жёлтое золото"),
   ("silver", "Cеребро"),
   ("palladium", "Палладий"),
   ("platinum", "Платина"),
   ("custom", "Произвольная плотность:"),
   ("custom_name", "Материал:"),
   ("diamond", "Бриллиант"),
   ("zircon", "Фианит"),
   ("topaz", "Топаз"),
   ("emerald", "Изумруд"),
   ("ruby", "Рубин"),
   ("sapphire", "Сапфир"),
   ("round", "Кр-57"),
   ("oval", "Овал"),
   ("pearl", "Груша"),
   ("marquise", "Маркиз"),
   ("baguette", "Багет"),
   ("square", "Квадрат"),
   ("error_file", "Сначала сохраните ваш blend файл"),
   ("error_digit", "Значение должно быть числовым")]

/-- `locale` from `src/localization.py`: language code to message table. -/
def locale : List (String × List (String × String)) :=
  [("EN", locale_en), ("RU", locale_ru)]

/-- C9: the localization table contains exactly the two language codes
`EN` and `RU`, and the two language mappings have identical key lists —
hence every message key present in one language's mapping is present in
the other. -/
theorem locale_two_languages_same_keys :
    locale.map Prod.fst = ["EN", "RU"]
      ∧ (locale.map Prod.fst).length = 2
      ∧ locale_en.map Prod.fst = locale_ru.map Prod.fst
      ∧ ∀ k : String,
          k ∈ locale_en.map Prod.fst ↔ k ∈ locale_ru.map Prod.fst := by
  have hkeys : locale_en.map Prod.fst = locale_ru.map Prod.fst := rfl
  exact ⟨rfl, rfl, hkeys, fun k => by rw [hkeys]⟩

end Jewelcraft
